import Mathlib

/-!
Verification of the Korea drilldown choropleth map core
(`KoreaDrilldownMap.tsx`, `dummyStats.ts`).

The embedding models the pure computations of the map view: feature
code resolution and click-driven level transitions, the pan/zoom
transform with its clamped scale, the sequential color scale over the
statistic domain, the rank map, the projection/placeholder guard, and
the dummy-statistics generator. JavaScript numbers are modelled as
exact rationals (ℚ); 32-bit unsigned wrap-around (`>>> 0`) is modelled
as `% 2^32` on ℕ.
-/

namespace GeoMap

/-- The three administrative tiers: `ctprvn` (province), `sig`
(municipality), `emd` (sub-municipality). -/
inductive Level where
  | ctprvn
  | sig
  | emd
deriving DecidableEq, Repr

/-- The property bag of a region feature, restricted to the keys the
source consults: `code`, `CTPRVN_CD`, `SIG_CD`, `EMD_CD` for the code
and `name`, `CTP_KOR_NM`, `SIG_KOR_NM`, `EMD_KOR_NM` for the name.
`none` models a JS `null`/`undefined` property. -/
structure FeatureProps where
  code : Option String
  CTPRVN_CD : Option String
  SIG_CD : Option String
  EMD_CD : Option String
deriving DecidableEq, Repr

/-- `getFeatureCode` from `KoreaDrilldownMap.tsx`: nullish-coalescing
fallback through `code`, `CTPRVN_CD`, `SIG_CD`, `EMD_CD`, defaulting to
the empty string. The `level` argument is accepted and ignored, as in
the source. -/
def getFeatureCode (_level : Level) (f : FeatureProps) : String :=
  ((f.code.orElse fun _ => f.CTPRVN_CD).orElse fun _ =>
    (f.SIG_CD.orElse fun _ => f.EMD_CD)).getD ""

/-- `handleClick` from `KoreaDrilldownMap.tsx`, returning the list of
`onSelect` invocations it performs: empty code returns early; at
`ctprvn` it emits `("sig", code)`, at `sig` it emits `("emd", code)`,
and at `emd` nothing. -/
def handleClick (level : Level) (f : FeatureProps) : List (Level × String) :=
  let code := getFeatureCode level f
  if code = "" then []
  else
    match level with
    | .ctprvn => [(.sig, code)]
    | .sig => [(.emd, code)]
    | .emd => []

/-- C1: a click with a non-empty resolved code emits exactly one
selection event one tier deeper at `ctprvn` and `sig`, nothing at the
deepest tier `emd`, and nothing at any tier when the resolved code is
empty. -/
theorem claim_C1_click_resolution (f : FeatureProps) :
    (getFeatureCode .ctprvn f ≠ "" →
      handleClick .ctprvn f = [(.sig, getFeatureCode .ctprvn f)]) ∧
    (getFeatureCode .sig f ≠ "" →
      handleClick .sig f = [(.emd, getFeatureCode .sig f)]) ∧
    handleClick .emd f = [] ∧
    (∀ level : Level, getFeatureCode level f = "" → handleClick level f = []) := by
  refine ⟨fun h => ?_, fun h => ?_, ?_, fun level h => ?_⟩
  · simp [handleClick, h]
  · simp [handleClick, h]
  · by_cases h : getFeatureCode .emd f = "" <;> simp [handleClick, h]
  · simp [handleClick, h]

/-- Witness for C1 at the concrete feature `{code: "11"}`. -/
theorem claim_C1_click_resolution_witness :
    handleClick .ctprvn ⟨some "11", none, none, none⟩ =
      [(.sig, "11")] ∧
    handleClick .ctprvn ⟨none, none, none, none⟩ = [] := by
  refine ⟨?_, ?_⟩
  · exact (claim_C1_click_resolution ⟨some "11", none, none, none⟩).1 (by decide)
  · exact (claim_C1_click_resolution ⟨none, none, none, none⟩).2.2.2 .ctprvn (by decide)

/-- The pan/zoom transform `(x, y, k)`: an SVG `translate(x, y) scale(k)`
applied to the region layer, as set from `zoomState` in the source. -/
structure Transform where
  x : ℚ
  y : ℚ
  k : ℚ
deriving DecidableEq, Repr

/-- The identity transform `d3.zoomIdentity`: no translation, scale 1. -/
def zoomIdentity : Transform := ⟨0, 0, 1⟩

/-- Screen position of a world point `w` (one axis) under a transform:
`translate(x, y) scale(k)` maps `w` to `x + k * w`. -/
def screenOf (x k w : ℚ) : ℚ := x + k * w

/-- World point (one axis) currently shown at screen position `p` under
translation `x` and scale `k`: the inverse of `screenOf`. -/
def worldAt (x k p : ℚ) : ℚ := (p - x) / k

/-- Direction of a discrete zoom button press. -/
inductive ZoomDir where
  | zoomIn
  | zoomOut
deriving DecidableEq, Repr

/-- `handleZoom` from `KoreaDrilldownMap.tsx`: multiply the scale by
1.2 (in) or 0.8 (out), clamp to `[1, 5]`, keep the translation. -/
def handleZoom (dir : ZoomDir) (t : Transform) : Transform :=
  let scale : ℚ := match dir with
    | .zoomIn => 12 / 10
    | .zoomOut => 8 / 10
  let nextK := max 1 (min 5 (t.k * scale))
  ⟨t.x, t.y, nextK⟩

/-- The `onWheel` handler from `KoreaDrilldownMap.tsx`: the factor is
0.9 when `deltaY > 0`, else 1.1; the new scale is clamped to `[1, 5]`;
the translation is recomputed around the pointer position `p` by
`new = p - ((p - old) / k) * nextK` on each axis. -/
def onWheel (deltaY : ℚ) (p : ℚ × ℚ) (t : Transform) : Transform :=
  let direction : ℚ := if deltaY > 0 then 9 / 10 else 11 / 10
  let nextK := max 1 (min 5 (t.k * direction))
  let newX := p.1 - ((p.1 - t.x) / t.k) * nextK
  let newY := p.2 - ((p.2 - t.y) / t.k) * nextK
  ⟨newX, newY, nextK⟩

/-- C2: the wheel update is anchor-preserving. The world point that was
under the pointer `p` before the event (`worldAt`) is mapped by the
updated transform to exactly the screen point `p` again, on both axes
(exact over ℚ, hence within any rounding tolerance). -/
theorem claim_C2_wheel_anchor (t : Transform) (deltaY : ℚ) (p : ℚ × ℚ)
    (hk : t.k ≠ 0) :
    screenOf (onWheel deltaY p t).x (onWheel deltaY p t).k
      (worldAt t.x t.k p.1) = p.1 ∧
    screenOf (onWheel deltaY p t).y (onWheel deltaY p t).k
      (worldAt t.y t.k p.2) = p.2 := by
  constructor <;>
    · simp only [onWheel, screenOf, worldAt]
      ring

/-- Witness for C2 at transform `(3, 4, 2)`, pointer `(10, 20)`,
scroll delta 1. -/
theorem claim_C2_wheel_anchor_witness :
    screenOf (onWheel 1 (10, 20) ⟨3, 4, 2⟩).x (onWheel 1 (10, 20) ⟨3, 4, 2⟩).k
      (worldAt 3 2 10) = 10 ∧
    screenOf (onWheel 1 (10, 20) ⟨3, 4, 2⟩).y (onWheel 1 (10, 20) ⟨3, 4, 2⟩).k
      (worldAt 4 2 20) = 20 :=
  claim_C2_wheel_anchor ⟨3, 4, 2⟩ 1 (10, 20) (by norm_num)

/-- A single zoom input: a discrete zoom-button press, or a wheel event
with its scroll delta and pointer position. -/
inductive ZoomInput where
  | button : ZoomDir → ZoomInput
  | wheel : ℚ → ℚ × ℚ → ZoomInput

/-- Dispatch one zoom input to its handler. -/
def applyInput (t : Transform) (i : ZoomInput) : Transform :=
  match i with
  | .button dir => handleZoom dir t
  | .wheel deltaY p => onWheel deltaY p t

/-- Fold a sequence of zoom inputs starting from the identity
transform. -/
def applyInputs (inputs : List ZoomInput) : Transform :=
  inputs.foldl applyInput zoomIdentity

/-- Every zoom input clamps the resulting scale into `[1, 5]`,
whatever the incoming transform. -/
theorem applyInput_k_mem (t : Transform) (i : ZoomInput) :
    1 ≤ (applyInput t i).k ∧ (applyInput t i).k ≤ 5 := by
  have h5 : (1 : ℚ) ≤ 5 := by norm_num
  cases i with
  | button dir =>
      exact ⟨le_max_left _ _, max_le h5 (min_le_left _ _)⟩
  | wheel deltaY p =>
      exact ⟨le_max_left _ _, max_le h5 (min_le_left _ _)⟩

/-- The scale stays in `[1, 5]` along any input sequence. -/
theorem applyInputs_k_mem (inputs : List ZoomInput) :
    1 ≤ (applyInputs inputs).k ∧ (applyInputs inputs).k ≤ 5 := by
  have gen : ∀ (l : List ZoomInput) (t : Transform),
      1 ≤ t.k ∧ t.k ≤ 5 →
      1 ≤ (l.foldl applyInput t).k ∧ (l.foldl applyInput t).k ≤ 5 := by
    intro l
    induction l with
    | nil => intro t ht; exact ht
    | cons i rest ih =>
        intro t _
        exact ih (applyInput t i) (applyInput_k_mem t i)
  exact gen inputs zoomIdentity (by constructor <;> norm_num [zoomIdentity])

/-- C3: from the identity transform, any sequence of wheel events and
zoom-button presses leaves the scale in `[1, 5]`; in particular ten
consecutive zoom-in presses never exceed 5. -/
theorem claim_C3_scale_clamped (inputs : List ZoomInput) :
    (1 ≤ (applyInputs inputs).k ∧ (applyInputs inputs).k ≤ 5) ∧
    (applyInputs (List.replicate 10 (.button .zoomIn))).k ≤ 5 :=
  ⟨applyInputs_k_mem inputs,
    (applyInputs_k_mem (List.replicate 10 (.button .zoomIn))).2⟩

/-- Counterexample to C4: starting at scale `k = 2` (inside the clamp
range, and with no clamping at either step: the intermediate scale is
12/5 and the final one 48/25, both in `[1, 5]`), a zoom-in press
followed by a zoom-out press yields scale 48/25 ≠ 2. The button factors
are 1.2 and 0.8, which are not reciprocal. -/
theorem claim_C4_counterexample :
    (handleZoom .zoomIn ⟨0, 0, 2⟩).k = 12 / 5 ∧
    (handleZoom .zoomOut (handleZoom .zoomIn ⟨0, 0, 2⟩)).k = 48 / 25 ∧
    ((48 : ℚ) / 25 ≠ 2) := by
  refine ⟨?_, ?_, by norm_num⟩ <;> norm_num [handleZoom]

/-- C4 amended: when neither step clamps, a zoom-in press followed by a
zoom-out press multiplies the scale by `1.2 * 0.8 = 24/25`, so the
scale does not return to its original value (except at `k = 0`, which
is outside the clamp range). -/
theorem claim_C4_in_out_not_inverse (t : Transform)
    (h1 : 1 ≤ t.k * (12 / 10)) (h2 : t.k * (12 / 10) ≤ 5)
    (h3 : 1 ≤ t.k * (12 / 10) * (8 / 10)) (h4 : t.k * (12 / 10) * (8 / 10) ≤ 5) :
    (handleZoom .zoomOut (handleZoom .zoomIn t)).k = (24 / 25) * t.k := by
  simp only [handleZoom]
  rw [min_eq_right h2, max_eq_right h1, min_eq_right h4, max_eq_right h3]
  ring

/-- Witness for the amended C4 at `k = 2`. -/
theorem claim_C4_in_out_not_inverse_witness :
    (handleZoom .zoomOut (handleZoom .zoomIn ⟨0, 0, 2⟩)).k = (24 / 25) * 2 :=
  claim_C4_in_out_not_inverse ⟨0, 0, 2⟩ (by norm_num) (by norm_num)
    (by norm_num) (by norm_num)

/-- A region statistic: a `(code, value)` pair (`RegionStat` in
`dummyStats.ts`). -/
structure Stat where
  code : String
  value : ℚ
deriving DecidableEq, Repr

/-- Lookup in a JS `Map` built with `new Map(entries)`: a later entry
with the same key overwrites an earlier one, and `get` of an absent key
yields `undefined` (`none`). -/
def mapGet {α : Type} (key : String) (entries : List (String × α)) : Option α :=
  entries.foldl (fun acc p => if p.1 = key then some p.2 else acc) none

/-- The entry list `stats.map((s) => [s.code, s.value])` backing
`statsMap`. -/
def statsEntries (stats : List Stat) : List (String × ℚ) :=
  stats.map fun s => (s.code, s.value)

/-- `Math.min(...values)` over a non-empty spread; the source's `0`
default for the empty list. -/
def minOrDefault : List ℚ → ℚ
  | [] => 0
  | v :: vs => vs.foldl min v

/-- `Math.max(...values)` over a non-empty spread; the source's `100`
default for the empty list. -/
def maxOrDefault : List ℚ → ℚ
  | [] => 100
  | v :: vs => vs.foldl max v

/-- The color scale's domain from `colorScale` in
`KoreaDrilldownMap.tsx`: `[min, max]` of the statistic values, widened
to `[min - 1, max + 1]` when `min == max`. -/
def scaleDomain (stats : List Stat) : ℚ × ℚ :=
  let values := stats.map Stat.value
  let mn := minOrDefault values
  let mx := maxOrDefault values
  if mn = mx then (mn - 1, mx + 1) else (mn, mx)

/-- The rendered color of a value, represented by the argument passed
to the fixed `d3.interpolateBlues` ramp: `scaleSequential` sends `v` to
`t = (v - d0) / (d1 - d0)` and the source's interpolator evaluates the
ramp at `0.25 + 0.75 * t`. Two equal ramp arguments denote the same
color, and on `[0, 1]` the Blues ramp assigns distinct arguments
distinct colors. -/
def colorScaleArg (stats : List Stat) (v : ℚ) : ℚ :=
  let d := scaleDomain stats
  1 / 4 + 3 / 4 * ((v - d.1) / (d.2 - d.1))

/-- The fill of a feature with resolved code `code` in the render loop:
the statistic value if present, else the default `?? 0`, passed through
the color scale. -/
def fillArg (stats : List Stat) (code : String) : ℚ :=
  colorScaleArg stats ((mapGet code (statsEntries stats)).getD 0)

/-- Counterexample to C5: with stats `[("11", 0), ("26", 80)]`, the
feature with absent code `"48"` is filled with the same color as the
feature `"11"` whose value 0 is the domain minimum — the gradient's low
endpoint — so the missing fill is not distinct from the domain
gradient's colors, and is not a fixed neutral color. -/
theorem claim_C5_counterexample :
    fillArg [⟨"11", 0⟩, ⟨"26", 80⟩] "48" = fillArg [⟨"11", 0⟩, ⟨"26", 80⟩] "11" ∧
    fillArg [⟨"11", 0⟩, ⟨"26", 80⟩] "48" = 1 / 4 ∧
    mapGet "48" (statsEntries [⟨"11", 0⟩, ⟨"26", 80⟩]) = none := by
  refine ⟨?_, ?_, by simp [mapGet, statsEntries]⟩ <;>
    simp [fillArg, colorScaleArg, scaleDomain, statsEntries, mapGet,
      minOrDefault, maxOrDefault]

/-- C5 amended: a feature whose code is absent from the statistic map
is filled by applying the color scale to the default value 0
(`statsMap.get(code) ?? 0`), not with a fixed neutral color; when 0
lies in the statistic domain this coincides with a gradient color. -/
theorem claim_C5_missing_fill (stats : List Stat) (code : String)
    (h : mapGet code (statsEntries stats) = none) :
    fillArg stats code = colorScaleArg stats 0 := by
  simp [fillArg, h]

/-- Witness for the amended C5: code `"48"` is absent from
`[("11", 0), ("26", 80)]`. -/
theorem claim_C5_missing_fill_witness :
    fillArg [⟨"11", 0⟩, ⟨"26", 80⟩] "48" =
      colorScaleArg [⟨"11", 0⟩, ⟨"26", 80⟩] 0 :=
  claim_C5_missing_fill [⟨"11", 0⟩, ⟨"26", 80⟩] "48" (by simp [mapGet, statsEntries])

/-- The running fold of `min` stays below its seed. -/
theorem foldl_min_le_seed (l : List ℚ) (a : ℚ) : l.foldl min a ≤ a := by
  induction l generalizing a with
  | nil => exact le_refl a
  | cons x xs ih => exact le_trans (ih (min a x)) (min_le_left a x)

/-- The running fold of `max` stays above its seed. -/
theorem seed_le_foldl_max (l : List ℚ) (a : ℚ) : a ≤ l.foldl max a := by
  induction l generalizing a with
  | nil => exact le_refl a
  | cons x xs ih => exact le_trans (le_max_left a x) (ih (max a x))

/-- For a non-empty value list the computed minimum is at most the
computed maximum. -/
theorem minOrDefault_le_maxOrDefault (l : List ℚ) (h : l ≠ []) :
    minOrDefault l ≤ maxOrDefault l := by
  match l with
  | [] => exact absurd rfl h
  | v :: vs =>
      exact le_trans (foldl_min_le_seed vs v) (seed_le_foldl_max vs v)

/-- Counterexample to C6: for the single-entry statistic set
`[("11", 50)]` the widened domain is `[49, 51]` and the scale evaluated
at `min = max = 50` is the gradient midpoint (ramp argument 5/8), which
is neither of the two domain endpoint colors (ramp arguments 1/4
and 1). -/
theorem claim_C6_counterexample :
    scaleDomain [⟨"11", 50⟩] = (49, 51) ∧
    colorScaleArg [⟨"11", 50⟩] 50 = 5 / 8 ∧
    ((5 : ℚ) / 8 ≠ 1 / 4) ∧ ((5 : ℚ) / 8 ≠ 1) := by
    refine ⟨?_, ?_, by norm_num, by norm_num⟩ <;>
      norm_num [scaleDomain, colorScaleArg, minOrDefault, maxOrDefault]

/-- C6 amended: for every non-empty statistic set the scale's domain
has non-zero width (so evaluation never divides by zero); when
`min < max` the domain is exactly `[min, max]` and the scale maps `min`
and `max` to the two gradient endpoint colors (ramp arguments 1/4
and 1); when `min = max` the domain is widened to `[min - 1, max + 1]`
and the scale maps the common value to the gradient midpoint (ramp
argument 5/8). -/
theorem claim_C6_domain (stats : List Stat) (h : stats ≠ []) :
    ((scaleDomain stats).2 - (scaleDomain stats).1 ≠ 0) ∧
    (minOrDefault (stats.map Stat.value) < maxOrDefault (stats.map Stat.value) →
      scaleDomain stats =
        (minOrDefault (stats.map Stat.value), maxOrDefault (stats.map Stat.value)) ∧
      colorScaleArg stats (minOrDefault (stats.map Stat.value)) = 1 / 4 ∧
      colorScaleArg stats (maxOrDefault (stats.map Stat.value)) = 1) ∧
    (minOrDefault (stats.map Stat.value) = maxOrDefault (stats.map Stat.value) →
      scaleDomain stats =
        (minOrDefault (stats.map Stat.value) - 1,
          maxOrDefault (stats.map Stat.value) + 1) ∧
      colorScaleArg stats (minOrDefault (stats.map Stat.value)) = 5 / 8) := by
  set mn := minOrDefault (stats.map Stat.value) with hmn
  set mx := maxOrDefault (stats.map Stat.value) with hmx
  by_cases heq : mn = mx
  · have hdom : scaleDomain stats = (mn - 1, mx + 1) := by
      simp [scaleDomain, ← hmn, ← hmx, heq]
    refine ⟨?_, fun hlt => absurd heq (ne_of_lt hlt), fun _ => ⟨hdom, ?_⟩⟩
    · rw [hdom, heq]
      have h2 : mx + 1 - (mx - 1) = 2 := by ring
      rw [h2]
      norm_num
    · rw [colorScaleArg, hdom, heq]
      have h2 : mx + 1 - (mx - 1) = 2 := by ring
      norm_num [h2]
  · have hdom : scaleDomain stats = (mn, mx) := by
      simp [scaleDomain, ← hmn, ← hmx, heq]
    have hlt : mn < mx :=
      lt_of_le_of_ne
        (minOrDefault_le_maxOrDefault (stats.map Stat.value)
          (by simpa using h)) heq
    have hw : mx - mn ≠ 0 := sub_ne_zero_of_ne (ne_of_gt hlt)
    refine ⟨?_, fun _ => ⟨hdom, ?_, ?_⟩, fun habs => absurd habs heq⟩
    · rw [hdom]; exact hw
    · rw [colorScaleArg, hdom]
      simp
    · rw [colorScaleArg, hdom]
      field_simp
      ring

/-- Witness for the amended C6 at the two-entry set
`[("11", 80), ("26", 20)]`. -/
theorem claim_C6_domain_witness :
    (scaleDomain [⟨"11", 80⟩, ⟨"26", 20⟩]).2 -
      (scaleDomain [⟨"11", 80⟩, ⟨"26", 20⟩]).1 ≠ 0 :=
  (claim_C6_domain [⟨"11", 80⟩, ⟨"26", 20⟩] (by simp)).1

/-- Stable insertion into a value-descending list: the inserted element
`x` comes from earlier in the input, so it precedes `y` exactly when
`y.value ≤ x.value` (JS `Array.prototype.sort` with comparator
`(a, b) => b.value - a.value` is stable: descending by value, ties keep
input order). -/
def insertDesc (x : Stat) : List Stat → List Stat
  | [] => [x]
  | y :: ys => if y.value ≤ x.value then x :: y :: ys else y :: insertDesc x ys

/-- `[...stats].sort((a, b) => b.value - a.value)`: the stable
value-descending sort, as a stable insertion sort. -/
def sortDesc : List Stat → List Stat
  | [] => []
  | x :: xs => insertDesc x (sortDesc xs)

/-- The entry list `sorted.map((item, idx) => [item.code, idx + 1])`
started at index `idx`. -/
def rankedListFrom (idx : Nat) : List Stat → List (String × Nat)
  | [] => []
  | s :: rest => (s.code, idx + 1) :: rankedListFrom (idx + 1) rest

/-- The entries backing `rankedMap` in `KoreaDrilldownMap.tsx`: code
paired with 1-based position in the value-descending sorted list. -/
def rankedList (stats : List Stat) : List (String × Nat) :=
  rankedListFrom 0 (sortDesc stats)

/-- `rankedMap.get(code)` as the tooltip reads it (`?? "-"` renders a
dash when this is `none`). -/
def rankedGet (code : String) (stats : List Stat) : Option Nat :=
  mapGet code (rankedList stats)

/-- The overwrite fold behind `mapGet` ignores entries whose key never
matches. -/
theorem foldl_mapGet_const {α : Type} (key : String) (l : List (String × α))
    (acc : Option α) (h : key ∉ l.map Prod.fst) :
    l.foldl (fun acc p => if p.1 = key then some p.2 else acc) acc = acc := by
  induction l generalizing acc with
  | nil => rfl
  | cons p rest ih =>
      simp only [List.map_cons, List.mem_cons, not_or] at h
      rw [List.foldl_cons, if_neg fun hh => h.1 hh.symm]
      exact ih acc h.2

/-- With duplicate-free keys, `mapGet` returns the value of the unique
entry for the key. -/
theorem mapGet_eq_some {α : Type} {key : String} {v : α}
    {l : List (String × α)} (hnd : (l.map Prod.fst).Nodup)
    (hmem : (key, v) ∈ l) : mapGet key l = some v := by
  induction l with
  | nil => cases hmem
  | cons p rest ih =>
      rw [List.map_cons, List.nodup_cons] at hnd
      rcases List.mem_cons.mp hmem with hhead | htail
      · subst hhead
        rw [mapGet, List.foldl_cons, if_pos rfl]
        exact foldl_mapGet_const _ rest _ hnd.1
      · have hkey : key ∈ rest.map Prod.fst :=
          List.mem_map.mpr ⟨(key, v), htail, rfl⟩
        rw [mapGet, List.foldl_cons,
          if_neg fun hh => hnd.1 (by rw [hh]; exact hkey)]
        exact ih hnd.2 htail

/-- `mapGet` of an absent key yields `none`. -/
theorem mapGet_eq_none {α : Type} {key : String} {l : List (String × α)}
    (h : key ∉ l.map Prod.fst) : mapGet key l = none :=
  foldl_mapGet_const key l none h

/-- Stable insertion permutes consing. -/
theorem insertDesc_perm (x : Stat) (l : List Stat) :
    List.Perm (insertDesc x l) (x :: l) := by
  induction l with
  | nil => rfl
  | cons y ys ih =>
      rw [insertDesc]
      by_cases hc : y.value ≤ x.value
      · rw [if_pos hc]
      · rw [if_neg hc]
        exact (ih.cons y).trans (List.Perm.swap x y ys)

/-- The stable sort permutes its input. -/
theorem sortDesc_perm (l : List Stat) : List.Perm (sortDesc l) l := by
  induction l with
  | nil => rfl
  | cons x xs ih =>
      exact (insertDesc_perm x (sortDesc xs)).trans (ih.cons x)

/-- The keys of the rank entries are the codes of the sorted list. -/
theorem rankedListFrom_keys (idx : Nat) (l : List Stat) :
    (rankedListFrom idx l).map Prod.fst = l.map Stat.code := by
  induction l generalizing idx with
  | nil => rfl
  | cons s rest ih =>
      rw [rankedListFrom, List.map_cons, List.map_cons, ih (idx + 1)]

/-- The `j`-th element of the sorted list contributes the rank entry
`(code, idx + j + 1)`. -/
theorem rankedListFrom_mem (idx : Nat) (l : List Stat) (j : Nat)
    (h : j < l.length) :
    ((l.get ⟨j, h⟩).code, idx + j + 1) ∈ rankedListFrom idx l := by
  induction l generalizing idx j with
  | nil => exact absurd h (Nat.not_lt_zero j)
  | cons s rest ih =>
      match j with
      | 0 => exact List.mem_cons_self _ _
      | j + 1 =>
          have hj : j < rest.length := Nat.lt_of_succ_lt_succ h
          have hmem := ih (idx + 1) j hj
          have he : idx + 1 + j + 1 = idx + (j + 1) + 1 := by omega
          rw [he] at hmem
          exact List.mem_cons_of_mem _ hmem

/-- C7: when the statistic codes are duplicate-free, the rank map sends
the code of the `i`-th element (0-based) of the value-descending sorted
statistic list to rank `i + 1`, and a code with no statistic entry gets
no rank (the tooltip then shows the dash placeholder). -/
theorem claim_C7_rank_map (stats : List Stat)
    (hnd : (stats.map Stat.code).Nodup) :
    (∀ (i : Nat) (h : i < (sortDesc stats).length),
      rankedGet ((sortDesc stats).get ⟨i, h⟩).code stats = some (i + 1)) ∧
    (∀ code : String, code ∉ stats.map Stat.code → rankedGet code stats = none) := by
  have hperm : List.Perm ((sortDesc stats).map Stat.code) (stats.map Stat.code) :=
    (sortDesc_perm stats).map Stat.code
  have hndSorted : ((sortDesc stats).map Stat.code).Nodup :=
    hperm.nodup_iff.mpr hnd
  have hkeys : (rankedList stats).map Prod.fst = (sortDesc stats).map Stat.code :=
    rankedListFrom_keys 0 (sortDesc stats)
  constructor
  · intro i h
    have hmem := rankedListFrom_mem 0 (sortDesc stats) i h
    have he : 0 + i + 1 = i + 1 := by omega
    rw [he] at hmem
    exact mapGet_eq_some (hkeys ▸ hndSorted) hmem
  · intro code hcode
    have : code ∉ (rankedList stats).map Prod.fst := by
      rw [hkeys]
      exact fun hmem => hcode (hperm.mem_iff.mp hmem)
    exact mapGet_eq_none this

/-- Witness for C7 on the spec's example
`[{code:"11",value:80},{code:"26",value:20}]`: the rank map is
`{"11" ↦ 1, "26" ↦ 2}` and the absent code `"48"` has no rank. -/
theorem claim_C7_rank_map_witness :
    rankedGet "11" [⟨"11", 80⟩, ⟨"26", 20⟩] = some 1 ∧
    rankedGet "26" [⟨"11", 80⟩, ⟨"26", 20⟩] = some 2 ∧
    rankedGet "48" [⟨"11", 80⟩, ⟨"26", 20⟩] = none := by
  have h := claim_C7_rank_map [⟨"11", 80⟩, ⟨"26", 20⟩] (by simp)
  refine ⟨?_, ?_, h.2 "48" (by simp)⟩
  · have h0 := h.1 0 (by norm_num [sortDesc, insertDesc])
    simpa [sortDesc, insertDesc] using h0
  · have h1 := h.1 1 (by norm_num [sortDesc, insertDesc])
    simpa [sortDesc, insertDesc] using h1

/-- The minimum usable viewport dimension (`MIN_SIZE` in the source). -/
def MIN_SIZE : ℚ := 50

/-- The arguments the source hands to the external
`d3.geoIdentity().reflectY(true).fitSize([width, height], collection)`
call; the fit itself is d3 library code, represented here by its
inputs. -/
structure FittedProjection where
  width : ℚ
  height : ℚ
  features : List FeatureProps
deriving DecidableEq, Repr

/-- The `projection` memo from `KoreaDrilldownMap.tsx`: `null` when the
viewport is below `MIN_SIZE` in either dimension or the feature list is
empty, otherwise the fitted projection. -/
def projection (width height : ℚ) (features : List FeatureProps) :
    Option FittedProjection :=
  if width < MIN_SIZE ∨ height < MIN_SIZE ∨ features = [] then none
  else some ⟨width, height, features⟩

/-- The `path` memo: `null` exactly when the projection is `null`. -/
def pathOf (width height : ℚ) (features : List FeatureProps) :
    Option FittedProjection :=
  projection width height features

/-- The render guard
`width < MIN_SIZE || height < MIN_SIZE || !path`: `true` renders the
placeholder text instead of the SVG map. -/
def rendersPlaceholder (width height : ℚ) (features : List FeatureProps) : Prop :=
  width < MIN_SIZE ∨ height < MIN_SIZE ∨ pathOf width height features = none

instance (width height : ℚ) (features : List FeatureProps) :
    Decidable (rendersPlaceholder width height features) := by
  unfold rendersPlaceholder
  infer_instance

/-- C8: the projection exists exactly when both viewport dimensions are
at least 50 and the feature list is non-empty; the placeholder is
rendered exactly otherwise. Both are pure functions of
`(width, height, features)`, so the transition happens as soon as the
inputs change, with no remount needed. -/
theorem claim_C8_placeholder_guard (width height : ℚ)
    (features : List FeatureProps) :
    ((projection width height features).isSome ↔
      (50 ≤ width ∧ 50 ≤ height ∧ features ≠ [])) ∧
    (rendersPlaceholder width height features ↔
      (width < 50 ∨ height < 50 ∨ features = [])) := by
  by_cases hc : width < MIN_SIZE ∨ height < MIN_SIZE ∨ features = []
  · have hp : projection width height features = none := by
      simp [projection, hc]
    constructor
    · simp only [hp, Option.isSome_none]
      constructor
      · intro h; cases h
      · intro h
        rcases hc with h1 | h2 | h3
        · exact absurd h.1 (not_le.mpr h1)
        · exact absurd h.2.1 (not_le.mpr h2)
        · exact absurd h3 h.2.2
    · constructor
      · intro _; exact hc
      · intro _
        exact Or.inr (Or.inr (by simp [pathOf, hp]))
  · push_neg at hc
    have hp : projection width height features = some ⟨width, height, features⟩ := by
      rw [projection, if_neg]
      push_neg
      exact hc
    constructor
    · simp only [hp, Option.isSome_some, true_iff]
      exact ⟨hc.1, hc.2.1, hc.2.2⟩
    · constructor
      · intro h
        rcases h with h1 | h2 | h3
        · exact absurd h1 (not_lt.mpr hc.1)
        · exact absurd h2 (not_lt.mpr hc.2.1)
        · rw [pathOf, hp] at h3; cases h3
      · intro h
        rcases h with h1 | h2 | h3
        · exact absurd h1 (not_lt.mpr hc.1)
        · exact absurd h2 (not_lt.mpr hc.2.1)
        · exact absurd h3 hc.2.2

/-- `showLabels` from `KoreaDrilldownMap.tsx`:
`level === "ctprvn" || level === "sig" || level === "emd"`. -/
def showLabels (level : Level) : Bool :=
  level = Level.ctprvn || level = Level.sig || level = Level.emd

/-- Whether the label layer is rendered for a tier at zoom factor `k`:
the JSX gates the label elements on `showLabels` alone; the zoom state
is not consulted. -/
def labelsVisible (level : Level) (_k : ℚ) : Bool :=
  showLabels level

/-- Counterexample to C9: at the deeper tier `sig` the labels are
rendered at the minimum zoom factor 1 (full-country extent), and no
visibility threshold above the minimum zoom can gate them, because the
label layer is rendered at every zoom factor. -/
theorem claim_C9_counterexample :
    labelsVisible Level.sig 1 = true ∧
    ¬ (∃ τ : ℚ, 1 < τ ∧
        ∀ k : ℚ, 1 ≤ k → k < τ → labelsVisible Level.sig k = false) := by
  constructor
  · rfl
  · rintro ⟨τ, hτ, hgate⟩
    have h1 := hgate 1 le_rfl hτ
    simp [labelsVisible, showLabels] at h1

/-- C9 amended: the label layer is rendered unconditionally at all
three tiers and every zoom factor — `showLabels` is a tautology over
the three levels and ignores the zoom state. -/
theorem claim_C9_labels_unconditional (level : Level) (k : ℚ) :
    labelsVisible level k = true := by
  cases level <;> rfl

/-- A generated dummy statistic (`RegionStat`): the region code and a
value, both as produced by `generateDummyStats`. Strings are modelled
as lists of UTF-16 code units, matching `charCodeAt`. -/
structure DummyStat where
  code : List Nat
  value : Nat
deriving DecidableEq, Repr

/-- One step of the hash loop in `dummyStats.ts`:
`hash = (hash * 31 + charCode) >>> 0`, the unsigned 32-bit wrap of the
exact integer (exact because `hash * 31 + c < 2^53`). -/
def hashStep (hash c : Nat) : Nat := (hash * 31 + c) % 2 ^ 32

/-- The full hash of a seed string, folded from 0. -/
def hashOf (seed : List Nat) : Nat := seed.foldl hashStep 0

/-- `generateDummyStats` from `dummyStats.ts`: for each code, hash the
seed `code + "-" + salt` (45 is the code unit of `"-"`) and take the
value `hash % 101`. -/
def generateDummyStats (codes : List (List Nat)) (salt : List Nat) :
    List DummyStat :=
  codes.map fun code => ⟨code, hashOf (code ++ 45 :: salt) % 101⟩

/-- C10: `generateDummyStats` returns exactly one statistic per input
code, carrying the input codes in input order, every value is at most
100, and the function is deterministic (it is a pure function of its
arguments). -/
theorem claim_C10_dummy_stats (codes : List (List Nat)) (salt : List Nat) :
    (generateDummyStats codes salt).map DummyStat.code = codes ∧
    (generateDummyStats codes salt).length = codes.length ∧
    (generateDummyStats codes salt).all (fun s => s.value ≤ 100) = true ∧
    generateDummyStats codes salt = generateDummyStats codes salt := by
  refine ⟨?_, ?_, ?_, rfl⟩
  · rw [generateDummyStats, List.map_map]
    exact List.map_id' codes
  · rw [generateDummyStats, List.length_map]
  · rw [List.all_eq_true]
    intro s hs
    rw [generateDummyStats, List.mem_map] at hs
    obtain ⟨code, _, rfl⟩ := hs
    have h101 : hashOf (code ++ 45 :: salt) % 101 < 101 :=
      Nat.mod_lt _ (by norm_num)
    exact decide_eq_true (Nat.lt_succ_iff.mp h101)

end GeoMap
